import Mathlib

/-!
Shallow embedding of the massbit-verification pallets (dapi-staking and dapi)
and proofs about them.  Pure-Rust functions from
`src/pallets/dapi-staking/src/pallet/mod.rs` and `src/pallets/dapi/src/lib.rs`
are translated into executable Lean definitions; storage maps become
association lists, balances become `Nat` with explicit `u128` bounds where the
source uses `checked_add` / `saturating_add`, and fallible extrinsics return
`Except`.  A failing extrinsic reverts all of its writes, so errors carry no
state (transactional semantics of the runtime).
-/

deriving instance DecidableEq for Except

namespace Massbit

abbrev AccountId := Nat
abbrev PoolId := Nat
abbrev EraIndex := Nat
abbrev Balance := Nat

/-- Upper bound of the `u128` balance type. -/
def U128MAX : Nat := 2 ^ 128 - 1

/-- Rust `u128::checked_add`. -/
def checkedAdd (a b : Nat) : Option Nat :=
  if a + b ≤ U128MAX then some (a + b) else none

/-- Rust `u128::saturating_add`. -/
def satAdd (a b : Nat) : Nat := min (a + b) U128MAX

/-- Association-list model of a Substrate `StorageMap` / `BTreeMap`: lookup. -/
def lookupA {κ ν : Type} [DecidableEq κ] : List (κ × ν) → κ → Option ν
  | [], _ => none
  | p :: rest, key => if p.1 = key then some p.2 else lookupA rest key

/-- Association-list insert: replace the first binding of the key, or append. -/
def insertA {κ ν : Type} [DecidableEq κ] : List (κ × ν) → κ → ν → List (κ × ν)
  | [], key, value => [(key, value)]
  | p :: rest, key, value =>
    if p.1 = key then (key, value) :: rest else p :: insertA rest key value

/-- Remove every binding of a key (used only to state frame conditions). -/
def eraseA {κ ν : Type} [DecidableEq κ] : List (κ × ν) → κ → List (κ × ν)
  | [], _ => []
  | p :: rest, key => if p.1 = key then eraseA rest key else p :: eraseA rest key

/-- `StorageMap::mutate` whose closure only touches an existing value
(`if let Some(x) = value { ... }`): absent keys stay absent. -/
def mutateIfSome {κ ν : Type} [DecidableEq κ] : List (κ × ν) → κ → (ν → ν) → List (κ × ν)
  | [], _, _ => []
  | p :: rest, key, f =>
    if p.1 = key then (p.1, f p.2) :: mutateIfSome rest key f
    else p :: mutateIfSome rest key f

/-- `BTreeSet::insert` on a list model. -/
def setInsert {α : Type} [DecidableEq α] (l : List α) (x : α) : List α :=
  if x ∈ l then l else l ++ [x]

/-- `BTreeSet::remove` on a list model. -/
def setRemove {α : Type} [DecidableEq α] (l : List α) (x : α) : List α :=
  l.filter (fun y => y ≠ x)

/-- One billion: the accuracy of `Perbill`. -/
def PERBILL : Nat := 1000000000

/-- The external `sp_arithmetic` collaborator `Perbill::from_rational`,
modelled as parts-per-billion with floor rounding: the denominator is clamped
to at least one and the numerator to at most the denominator, exactly as in
the collaborator's interface contract. -/
def perbillFromRational (p q : Nat) : Nat :=
  (min p (max q 1)) * PERBILL / max q 1

/-- Multiplication of a `Perbill` value by a balance (floor rounding). -/
def perbillMul (parts x : Nat) : Nat := parts * x / PERBILL

/-- Dispatch origin of an extrinsic. -/
inductive Origin where
  | Root : Origin
  | Signed : AccountId → Origin
  | NoOrigin : Origin
deriving DecidableEq, Repr

/-- Per-era reward and stake snapshot; the struct literal at
`dapi-staking/src/pallet/mod.rs:343-349` pins its fields to exactly
`rewards` and `staked`. -/
structure EraRewardAndStake where
  rewards : Balance
  staked : Balance
deriving DecidableEq, Repr

instance : Inhabited EraRewardAndStake := ⟨⟨0, 0⟩⟩

/-- Per-(pool, era) staking points, with fields as used by `mod.rs`
(`total`, `stakers` as a map from staker to amount, `claimed_rewards`). -/
structure EraStakingPoints where
  total : Balance
  stakers : List (AccountId × Balance)
  claimed_rewards : Balance
deriving DecidableEq, Repr

instance : Inhabited EraStakingPoints := ⟨⟨0, [], 0⟩⟩

/-- Modelled from the spec: the `AccountLedger` type of the staking pallet
(its definition lives outside `src/`); `mod.rs` uses its `locked` total and
the emptiness of its unbonding chunks. -/
structure AccountLedger where
  locked : Balance
  unbonding_info : List (Balance × EraIndex)
deriving DecidableEq, Repr

instance : Inhabited AccountLedger := ⟨⟨0, []⟩⟩

/-- Modelled from the spec: mode of era forcing, `force_era ∈ {None, New}`;
`mod.rs` uses the two constructors `ForceNone` and `ForceNew`. -/
inductive Forcing where
  | ForceNone : Forcing
  | ForceNew : Forcing
deriving DecidableEq, Repr

/-- Errors of the staking pallet (`mod.rs:136-143`), together with the
arithmetic overflow error and the currency collaborator's failures that the
extrinsics propagate. -/
inductive StakingError where
  | StakingWithNoValue : StakingError
  | AlreadyClaimedInThisEra : StakingError
  | EraOutOfBounds : StakingError
  | UnknownEraReward : StakingError
  | NotStaked : StakingError
  | Overflow : StakingError
  | InsufficientBalance : StakingError
  | BadOrigin : StakingError
deriving DecidableEq, Repr

/-- Events of the staking pallet (`mod.rs:127-134`). -/
inductive StakingEvent where
  | NewPool : PoolId → StakingEvent
  | BondAndStake : AccountId → PoolId → Balance → StakingEvent
  | NewDapiStakingEra : EraIndex → StakingEvent
  | Reward : AccountId → PoolId → EraIndex → Balance → StakingEvent
deriving DecidableEq, Repr

/-- Configurable constants of the staking pallet used by the embedded
functions. -/
structure StakingConfig where
  blockPerEra : Nat
  historyDepth : Nat
  minimumRemainingAmount : Balance
deriving DecidableEq, Repr

/-- Storage of the staking pallet, together with the external currency state
it interacts with (`freeBalances`, `locks`, the pallet account's free balance
and the total issuance). -/
structure StakingState where
  ledgers : List (AccountId × AccountLedger)
  currentEra : EraIndex
  blockRewardAccumulator : Balance
  eraRewardsAndStakes : List (EraIndex × EraRewardAndStake)
  poolEraStake : List ((PoolId × EraIndex) × EraStakingPoints)
  forceEra : Forcing
  registeredPools : List PoolId
  freeBalances : List (AccountId × Balance)
  locks : List (AccountId × Balance)
  palletFree : Balance
  totalIssuance : Balance
deriving DecidableEq, Repr

/-- `Ledger` is a `ValueQuery` storage map: absent accounts read as default. -/
def ledgerOf (s : StakingState) (who : AccountId) : AccountLedger :=
  (lookupA s.ledgers who).getD default

/-- `T::Currency::free_balance`. -/
def freeBalanceOf (s : StakingState) (who : AccountId) : Balance :=
  (lookupA s.freeBalances who).getD 0

/-- `ensure_signed` for staking extrinsics. -/
def ensureSignedS : Origin → Except StakingError AccountId
  | Origin.Signed who => Except.ok who
  | _ => Except.error StakingError.BadOrigin

/-- Era indices for which a pool has a direct `PoolEraStake` entry
(`PoolEraStake::iter_key_prefix`). -/
def poolEraKeys (s : StakingState) (pool_id : PoolId) : List EraIndex :=
  (s.poolEraStake.filter (fun p => p.1.1 = pool_id)).map (fun p => p.1.2)

/-- `Pallet::staking_info` (`mod.rs:358-374`): direct entry when present,
otherwise the latest stored entry at an era `≤ era` (era `0` when none) with
`claimed_rewards` zeroed, falling back to the default points. -/
def stakingInfo (s : StakingState) (pool_id : PoolId) (era : EraIndex) : EraStakingPoints :=
  match lookupA s.poolEraStake (pool_id, era) with
  | some staking_info => staking_info
  | none =>
    let available_era := (((poolEraKeys s pool_id).filter (fun x => x ≤ era)).max?).getD 0
    let staking_points := (lookupA s.poolEraStake (pool_id, available_era)).getD default
    { staking_points with claimed_rewards := 0 }

/-- `Pallet::update_ledger` (`mod.rs:323-331`): an empty ledger is removed
together with the currency lock, otherwise the lock is set to `ledger.locked`
and the ledger persisted. -/
def updateLedger (s : StakingState) (staker : AccountId) (ledger : AccountLedger) : StakingState :=
  if ledger.locked = 0 ∧ ledger.unbonding_info.isEmpty then
    { s with ledgers := eraseA s.ledgers staker, locks := eraseA s.locks staker }
  else
    { s with locks := insertA s.locks staker ledger.locked,
             ledgers := insertA s.ledgers staker ledger }

/-- `StakingInterface::stake` for the pallet (`mod.rs:262-312`). -/
def stake (cfg : StakingConfig) (staker : AccountId) (pool_id : PoolId) (value : Balance)
    (s : StakingState) : Except StakingError (StakingState × List StakingEvent) :=
  let ledger := ledgerOf s staker
  let free_balance := freeBalanceOf s staker - cfg.minimumRemainingAmount
  let available_balance := free_balance - ledger.locked
  let value_to_stake := min value available_balance
  if value_to_stake = 0 then Except.error StakingError.StakingWithNoValue
  else
    let current_era := s.currentEra
    let staking_info := stakingInfo s pool_id current_era
    match checkedAdd ledger.locked value_to_stake with
    | none => Except.error StakingError.Overflow
    | some new_locked =>
      match checkedAdd staking_info.total value_to_stake with
      | none => Except.error StakingError.Overflow
      | some new_total =>
        let entry := (lookupA staking_info.stakers staker).getD 0
        match checkedAdd entry value_to_stake with
        | none => Except.error StakingError.Overflow
        | some new_entry =>
          let staking_info' := { staking_info with
            total := new_total,
            stakers := insertA staking_info.stakers staker new_entry }
          let s1 := { s with eraRewardsAndStakes :=
            (mutateIfSome s.eraRewardsAndStakes current_era
              (fun x => { x with staked := satAdd x.staked value_to_stake })) }
          let s2 := updateLedger s1 staker { ledger with locked := new_locked }
          let s3 := { s2 with poolEraStake :=
            (insertA s2.poolEraStake (pool_id, current_era) staking_info') }
          Except.ok (s3, [StakingEvent.BondAndStake staker pool_id value_to_stake])

/-- Sum of the amounts of the `Reward` events in a list (the magnitudes of
the dropped imbalance pieces of `claim`). -/
def sumRewardAmounts : List StakingEvent → Nat
  | [] => 0
  | StakingEvent.Reward _ _ _ amount :: rest => amount + sumRewardAmounts rest
  | _ :: rest => sumRewardAmounts rest

/-- The per-staker loop of `claim` (`mod.rs:224-236`): each iteration splits
`ratio × stakers_total_reward` off the remaining withdrawn imbalance (capped
by what remains) and emits a `Reward` event with the split amount; every
split-off piece is dropped after the event. Returns the events and the
leftover imbalance. -/
def claimLoop (pool_id : PoolId) (era : EraIndex) (pointsTotal stakersTotalReward : Nat) :
    List (AccountId × Balance) → Nat → List StakingEvent × Nat
  | [], remaining => ([], remaining)
  | p :: rest, remaining =>
    let reward :=
      min (perbillMul (perbillFromRational p.2 pointsTotal) stakersTotalReward) remaining
    let pr := claimLoop pool_id era pointsTotal stakersTotalReward rest (remaining - reward)
    (StakingEvent.Reward p.1 pool_id era reward :: pr.1, pr.2)

/-- The pool payout `claim` computes for `(pool_id, era)`:
`Perbill::from_rational(points.total, era.staked) * era.rewards`
(zero when the era has no snapshot). -/
def computedPoolReward (s : StakingState) (pool_id : PoolId) (era : EraIndex) : Balance :=
  match lookupA s.eraRewardsAndStakes era with
  | none => 0
  | some reward_and_stake =>
    perbillMul (perbillFromRational (stakingInfo s pool_id era).total reward_and_stake.staked)
      reward_and_stake.rewards

/-- The `claim` extrinsic (`mod.rs:189-242`).  The withdrawn imbalance is
split per staker and every piece, as well as the leftover, is dropped without
being resolved to any account; a dropped negative imbalance burns its
magnitude from the total issuance (the currency collaborator's drop
semantics), which the final state records. -/
def claim (cfg : StakingConfig) (origin : Origin) (pool_id : PoolId) (era : EraIndex)
    (s : StakingState) : Except StakingError (StakingState × List StakingEvent) :=
  match ensureSignedS origin with
  | Except.error e => Except.error e
  | Except.ok _ =>
    let current_era := s.currentEra
    let era_low_bound := current_era - cfg.historyDepth
    if era < current_era ∧ era_low_bound ≤ era then
      let staking_info := stakingInfo s pool_id era
      if staking_info.claimed_rewards = 0 then
        if staking_info.stakers.isEmpty then Except.error StakingError.NotStaked
        else
          match lookupA s.eraRewardsAndStakes era with
          | none => Except.error StakingError.UnknownEraReward
          | some reward_and_stake =>
            let reward_ratio :=
              perbillFromRational staking_info.total reward_and_stake.staked
            let dapi_pool_reward := perbillMul reward_ratio reward_and_stake.rewards
            if dapi_pool_reward ≤ s.palletFree then
              let stakers_total_reward := dapi_pool_reward
              let pr := claimLoop pool_id era staking_info.total stakers_total_reward
                staking_info.stakers stakers_total_reward
              let s' := { s with
                palletFree := s.palletFree - dapi_pool_reward,
                totalIssuance := s.totalIssuance - (sumRewardAmounts pr.1 + pr.2),
                poolEraStake := insertA s.poolEraStake (pool_id, era)
                  { staking_info with claimed_rewards := dapi_pool_reward } }
              Except.ok (s', pr.1)
            else Except.error StakingError.InsufficientBalance
      else Except.error StakingError.AlreadyClaimedInThisEra
    else Except.error StakingError.EraOutOfBounds

/-- `Pallet::reward_balance_snapshot` (`mod.rs:338-354`). -/
def rewardBalanceSnapshot (s : StakingState) (era : EraIndex) (reward : Balance) : StakingState :=
  let reward_and_stake := (lookupA s.eraRewardsAndStakes era).getD default
  let s1 := { s with eraRewardsAndStakes :=
    (insertA s.eraRewardsAndStakes (era + 1)
      { rewards := 0, staked := reward_and_stake.staked }) }
  { s1 with eraRewardsAndStakes :=
    (insertA s1.eraRewardsAndStakes era { reward_and_stake with rewards := reward }) }

/-- The `on_initialize` hook (`mod.rs:147-170`). -/
def onInitialize (cfg : StakingConfig) (now : Nat) (s : StakingState) :
    StakingState × List StakingEvent :=
  let force_new_era := s.forceEra = Forcing.ForceNew
  let previous_era := s.currentEra
  if now % cfg.blockPerEra = 1 ∨ force_new_era ∨ previous_era = 0 then
    let next_era := previous_era + 1
    let s1 := { s with currentEra := next_era }
    let reward := s1.blockRewardAccumulator
    let s2 := { s1 with blockRewardAccumulator := 0 }
    let s3 := rewardBalanceSnapshot s2 previous_era reward
    let s4 := if force_new_era then { s3 with forceEra := Forcing.ForceNone } else s3
    (s4, [StakingEvent.NewDapiStakingEra next_era])
  else (s, [])

/-- `OnUnbalanced::on_nonzero_unbalanced` for the staking pallet
(`mod.rs:39-44`): the imbalance magnitude is added to the accumulator and the
imbalance resolved into the pallet account. -/
def onNonzeroUnbalanced (s : StakingState) (block_reward : Balance) : StakingState :=
  { s with blockRewardAccumulator := satAdd s.blockRewardAccumulator block_reward,
           palletFree := s.palletFree + block_reward }

/-- `OnTimestampSet::on_timestamp_set` of the block-reward pallet
(`block-reward/src/lib.rs:62-67`): `Currency::issue` mints `RewardAmount`
(raising total issuance) and hands the imbalance to the staking sink. -/
def onTimestampSet (reward_amount : Balance) (s : StakingState) : StakingState :=
  let s1 := { s with totalIssuance := satAdd s.totalIssuance reward_amount }
  if reward_amount = 0 then s1 else onNonzeroUnbalanced s1 reward_amount

/-- A chain identifier: a byte string (`Vec<u8>`), bytes as `Nat`. -/
abbrev ChainId := List Nat

/-- Massbit provider/project identifier. -/
abbrev MassbitId := Nat

/-- A consumer project of the dapi pallet, with fields as constructed at
`dapi/src/lib.rs:195-196`. -/
structure Project where
  consumer : AccountId
  chain_id : ChainId
  quota : Nat
  usage : Nat
deriving DecidableEq, Repr

/-- Errors of the dapi pallet (`dapi/src/lib.rs:71-85`) plus the dispatch
failure of `ensure_signed`. -/
inductive DapiError where
  | AlreadyExist : DapiError
  | NotOperatedProvider : DapiError
  | BadChainId : DapiError
  | NotExist : DapiError
  | NotOwner : DapiError
  | PermissionDenied : DapiError
  | BadOrigin : DapiError
deriving DecidableEq, Repr

/-- Events of the dapi pallet relevant to the embedded extrinsics. -/
inductive DapiEvent where
  | ChainIdAdded : ChainId → DapiEvent
  | ChainIdRemoved : ChainId → DapiEvent
  | FishermanAdded : AccountId → DapiEvent
  | FishermanRemoved : AccountId → DapiEvent
  | ProjectUsageReported : MassbitId → Nat → DapiEvent
  | ProjectReachedQuota : MassbitId → DapiEvent
deriving DecidableEq, Repr

/-- Configurable constants of the dapi pallet used here. -/
structure DapiConfig where
  chainIdMaxLength : Nat
deriving DecidableEq, Repr

/-- Storage of the dapi pallet touched by the embedded extrinsics. -/
structure DapiState where
  projects : List (MassbitId × Project)
  fishermen : List AccountId
  chainIds : List ChainId
deriving DecidableEq, Repr

/-- `ensure_signed` for dapi extrinsics. -/
def ensureSignedD : Origin → Except DapiError AccountId
  | Origin.Signed who => Except.ok who
  | _ => Except.error DapiError.BadOrigin

/-- `ensure_root`: its `Result` as the dapi pallet's origin-gated calls
obtain it. -/
def ensureRootD : Origin → Except DapiError Unit
  | Origin.Root => Except.ok ()
  | _ => Except.error DapiError.BadOrigin

/-- The `BoundedVec` conversion `chain_id.try_into()` with `BadChainId` on
oversize input. -/
def toBoundedChainId (cfg : DapiConfig) (chain_id : ChainId) : Except DapiError ChainId :=
  if chain_id.length ≤ cfg.chainIdMaxLength then Except.ok chain_id
  else Except.error DapiError.BadChainId

/-- The `add_chain_id` extrinsic (`dapi/src/lib.rs:347-362`).  The source
reads `let _ = ensure_root(origin);` — the result of the root check is
discarded, so the check has no effect; the translation keeps the discarded
binding. -/
def addChainId (cfg : DapiConfig) (origin : Origin) (chain_id : ChainId) (s : DapiState) :
    Except DapiError (DapiState × List DapiEvent) :=
  let _discarded := ensureRootD origin
  match toBoundedChainId cfg chain_id with
  | Except.error e => Except.error e
  | Except.ok bounded_chain_id =>
    if bounded_chain_id ∈ s.chainIds then Except.error DapiError.AlreadyExist
    else
      Except.ok ({ s with chainIds := setInsert s.chainIds bounded_chain_id },
        [DapiEvent.ChainIdAdded chain_id])

/-- The `remove_chain_id` extrinsic (`dapi/src/lib.rs:364-382`); the root
check is discarded exactly as in `add_chain_id`. -/
def removeChainId (cfg : DapiConfig) (origin : Origin) (chain_id : ChainId) (s : DapiState) :
    Except DapiError (DapiState × List DapiEvent) :=
  let _discarded := ensureRootD origin
  match toBoundedChainId cfg chain_id with
  | Except.error e => Except.error e
  | Except.ok bounded_chain_id =>
    if bounded_chain_id ∈ s.chainIds then
      Except.ok ({ s with chainIds := setRemove s.chainIds bounded_chain_id },
        [DapiEvent.ChainIdRemoved chain_id])
    else Except.error DapiError.NotExist

/-- The `add_fisherman` extrinsic (`dapi/src/lib.rs:384-399`); the root check
is discarded. -/
def addFisherman (origin : Origin) (account_id : AccountId) (s : DapiState) :
    Except DapiError (DapiState × List DapiEvent) :=
  let _discarded := ensureRootD origin
  if account_id ∈ s.fishermen then Except.error DapiError.AlreadyExist
  else
    Except.ok ({ s with fishermen := setInsert s.fishermen account_id },
      [DapiEvent.FishermanAdded account_id])

/-- The `remove_fisherman` extrinsic (`dapi/src/lib.rs:401-416`); the root
check is discarded. -/
def removeFisherman (origin : Origin) (account_id : AccountId) (s : DapiState) :
    Except DapiError (DapiState × List DapiEvent) :=
  let _discarded := ensureRootD origin
  if account_id ∈ s.fishermen then
    Except.ok ({ s with fishermen := setRemove s.fishermen account_id },
      [DapiEvent.FishermanRemoved account_id])
  else Except.error DapiError.NotExist

/-- The `submit_project_usage` extrinsic (`dapi/src/lib.rs:232-255`). -/
def submitProjectUsage (origin : Origin) (project_id : MassbitId) (usage : Nat)
    (s : DapiState) : Except DapiError (DapiState × List DapiEvent) :=
  match ensureSignedD origin with
  | Except.error e => Except.error e
  | Except.ok account_id =>
    if account_id ∈ s.fishermen then
      match lookupA s.projects project_id with
      | none => Except.error DapiError.NotExist
      | some project =>
        let project' := { project with usage := min (satAdd project.usage usage) project.quota }
        let ev :=
          if project'.usage = project'.quota then DapiEvent.ProjectReachedQuota project_id
          else DapiEvent.ProjectUsageReported project_id usage
        Except.ok ({ s with projects := insertA s.projects project_id project' }, [ev])
    else Except.error DapiError.PermissionDenied

/-- Modelled from the spec: the default `OPERATOR_PERCENTAGE` of 80%
expressed in parts per billion.  No operator percentage exists anywhere in
the source revision under `src/`. -/
def specOperatorPercentage : Nat := 800000000

/-- The clamped amount the `stake` call locks:
`min(requested, free_balance − MINIMUM_REMAINING_AMOUNT − ledger.locked)`
with saturating subtraction (`mod.rs:271-276`). -/
def clampedStakeAmount (cfg : StakingConfig) (staker : AccountId) (value : Balance)
    (s : StakingState) : Balance :=
  min value ((freeBalanceOf s staker - cfg.minimumRemainingAmount) - (ledgerOf s staker).locked)

/-- Staking configuration used by the concrete scenarios: three blocks per
era, history depth two, minimum remaining amount one (the spec's test
defaults). -/
def cfgW : StakingConfig := ⟨3, 2, 1⟩

/-- A state with one pool `1` whose era-`1` points are one staker `7` with
stake `100`, era-`1` snapshot `{rewards = 1000, staked = 100}`, pool account
balance `5000` and total issuance `10000`. -/
def sClaimDemo : StakingState :=
  ⟨[], 2, 0, [(1, ⟨1000, 100⟩)], [((1, 1), ⟨100, [(7, 100)], 0⟩)], Forcing.ForceNone,
   [1], [(7, 50)], [], 5000, 10000⟩

/-- The state `claim` produces from `sClaimDemo` for pool `1`, era `1`. -/
def sClaimDemoPost : StakingState :=
  ⟨[], 2, 0, [(1, ⟨1000, 100⟩)], [((1, 1), ⟨100, [(7, 100)], 1000⟩)], Forcing.ForceNone,
   [1], [(7, 50)], [], 4000, 9000⟩

/-- A state whose pool `1` points for era `3` are already claimed
(`claimed_rewards = 7`) while the current era has moved to `10`, putting era
`3` outside the claimable window for `historyDepth = 2`. -/
def sC4 : StakingState :=
  ⟨[], 10, 0, [(3, ⟨1000, 5⟩)], [((1, 3), ⟨5, [(2, 5)], 7⟩)], Forcing.ForceNone,
   [1], [], [], 0, 0⟩

/-- Like `sC4` but with the current era at `4`, so era `3` is inside the
claimable window. -/
def sC4b : StakingState :=
  ⟨[], 4, 0, [(3, ⟨1000, 5⟩)], [((1, 3), ⟨5, [(2, 5)], 7⟩)], Forcing.ForceNone,
   [1], [], [], 0, 0⟩

/-- A state sitting just before an era boundary: current era `1`,
accumulator `100`, era-`1` snapshot `{rewards = 7, staked = 5}`. -/
def sEra : StakingState :=
  ⟨[], 1, 100, [(1, ⟨7, 5⟩)], [], Forcing.ForceNone, [], [], [], 0, 0⟩

/-- The state `on_initialize 4` produces from `sEra`. -/
def sEraPost : StakingState :=
  ⟨[], 2, 0, [(1, ⟨100, 5⟩), (2, ⟨0, 5⟩)], [], Forcing.ForceNone, [], [], [], 0, 0⟩

/-- A fresh staker state: account `4` has free balance `100` and nothing
staked anywhere; no era snapshot exists yet. -/
def sStake : StakingState :=
  ⟨[], 1, 0, [], [], Forcing.ForceNone, [1], [(4, 100)], [], 0, 0⟩

/-- The state `stake 4 1 50` produces from `sStake`. -/
def sStakePost : StakingState :=
  ⟨[(4, ⟨50, []⟩)], 1, 0, [], [((1, 1), ⟨50, [(4, 50)], 0⟩)], Forcing.ForceNone,
   [1], [(4, 100)], [(4, 50)], 0, 0⟩

/-- Like `sStake` but with an existing era-`1` snapshot `{rewards 0, staked 7}`. -/
def sStake2 : StakingState :=
  ⟨[], 1, 0, [(1, ⟨0, 7⟩)], [], Forcing.ForceNone, [1], [(4, 100)], [], 0, 0⟩

/-- The state `stake 4 1 50` produces from `sStake2`. -/
def sStake2Post : StakingState :=
  ⟨[(4, ⟨50, []⟩)], 1, 0, [(1, ⟨0, 57⟩)], [((1, 1), ⟨50, [(4, 50)], 0⟩)], Forcing.ForceNone,
   [1], [(4, 100)], [(4, 50)], 0, 0⟩

/-- A pool whose era-`1` points already hold three distinct stakers; account
`9` is not among them and has free balance `100`. -/
def sSeven : StakingState :=
  ⟨[], 1, 0, [], [((1, 1), ⟨30, [(11, 10), (12, 10), (13, 10)], 0⟩)], Forcing.ForceNone,
   [1], [(9, 100)], [], 0, 0⟩

/-- The state `stake 9 1 10` produces from `sSeven`: a fourth staker joined. -/
def sSevenPost : StakingState :=
  ⟨[(9, ⟨10, []⟩)], 1, 0, [], [((1, 1), ⟨40, [(11, 10), (12, 10), (13, 10), (9, 10)], 0⟩)],
   Forcing.ForceNone, [1], [(9, 100)], [(9, 10)], 0, 0⟩

/-- A state with pool `1` entries at eras `2` and `4` (and an unrelated pool
`2` entry at era `3`), for exercising the `staking_info` fallback. -/
def sInfo : StakingState :=
  ⟨[], 9, 0, [],
   [((1, 2), ⟨20, [(5, 20)], 11⟩), ((1, 4), ⟨30, [(6, 30)], 13⟩), ((2, 3), ⟨9, [(8, 9)], 1⟩)],
   Forcing.ForceNone, [], [], [], 0, 0⟩

/-- Dapi configuration with chain-id length bound `64`. -/
def dcfgW : DapiConfig := ⟨64⟩

/-- The empty dapi state. -/
def dEmpty : DapiState := ⟨[], [], []⟩

/-- A dapi state with one project `1` (consumer `5`, chain `[1]`, quota `100`,
usage `50`) and one fisherman `3`. -/
def dUse : DapiState := ⟨[(1, ⟨5, [1], 100, 50⟩)], [3], [[1]]⟩

theorem lookupA_insertA_self {κ ν : Type} [DecidableEq κ] (l : List (κ × ν)) (k : κ) (v : ν) :
    lookupA (insertA l k v) k = some v := by
  induction l with
  | nil => simp [insertA, lookupA]
  | cons p rest ih =>
    by_cases h : p.1 = k
    · simp [insertA, h, lookupA]
    · simp [insertA, h, lookupA, ih]

theorem lookupA_insertA_ne {κ ν : Type} [DecidableEq κ] (l : List (κ × ν)) (k k' : κ) (v : ν)
    (h : k' ≠ k) : lookupA (insertA l k v) k' = lookupA l k' := by
  induction l with
  | nil => simp [insertA, lookupA, Ne.symm h]
  | cons p rest ih =>
    by_cases hp : p.1 = k
    · rw [show insertA (p :: rest) k v = (k, v) :: rest by simp [insertA, hp]]
      simp [lookupA, hp, Ne.symm h]
    · rw [show insertA (p :: rest) k v = p :: insertA rest k v by simp [insertA, hp]]
      simp [lookupA, ih]

theorem insertA_length_of_none {κ ν : Type} [DecidableEq κ] (l : List (κ × ν)) (k : κ) (v : ν)
    (h : lookupA l k = none) : (insertA l k v).length = l.length + 1 := by
  induction l with
  | nil => simp [insertA]
  | cons p rest ih =>
    by_cases hp : p.1 = k
    · simp [lookupA, hp] at h
    · simp only [lookupA, hp, if_false] at h
      simp [insertA, hp, ih h]

theorem mutateIfSome_of_none {κ ν : Type} [DecidableEq κ] (l : List (κ × ν)) (k : κ) (f : ν → ν)
    (h : lookupA l k = none) : mutateIfSome l k f = l := by
  induction l with
  | nil => simp [mutateIfSome]
  | cons p rest ih =>
    by_cases hp : p.1 = k
    · simp [lookupA, hp] at h
    · simp only [lookupA, hp, if_false] at h
      simp [mutateIfSome, hp, ih h]

theorem lookupA_mutateIfSome_self {κ ν : Type} [DecidableEq κ] (l : List (κ × ν)) (k : κ)
    (f : ν → ν) : lookupA (mutateIfSome l k f) k = (lookupA l k).map f := by
  induction l with
  | nil => simp [mutateIfSome, lookupA]
  | cons p rest ih =>
    by_cases hp : p.1 = k
    · simp [mutateIfSome, lookupA, hp]
    · simp [mutateIfSome, lookupA, hp, ih]

theorem eraseA_mutateIfSome_self {κ ν : Type} [DecidableEq κ] (l : List (κ × ν)) (k : κ)
    (f : ν → ν) : eraseA (mutateIfSome l k f) k = eraseA l k := by
  induction l with
  | nil => simp [mutateIfSome, eraseA]
  | cons p rest ih =>
    by_cases hp : p.1 = k
    · simp [mutateIfSome, eraseA, hp, ih]
    · simp [mutateIfSome, eraseA, hp, ih]

theorem eraseA_insertA_self {κ ν : Type} [DecidableEq κ] (l : List (κ × ν)) (k : κ) (v : ν) :
    eraseA (insertA l k v) k = eraseA l k := by
  induction l with
  | nil => simp [insertA, eraseA]
  | cons p rest ih =>
    by_cases hp : p.1 = k
    · simp [insertA, hp, eraseA]
    · simp [insertA, hp, eraseA, ih]

theorem eraseA_comm {κ ν : Type} [DecidableEq κ] (l : List (κ × ν)) (a b : κ) :
    eraseA (eraseA l a) b = eraseA (eraseA l b) a := by
  induction l with
  | nil => simp [eraseA]
  | cons p rest ih =>
    by_cases ha : p.1 = a <;> by_cases hb : p.1 = b
    · have hab : a = b := ha.symm.trans hb
      simp [eraseA, ha, hb, hab, ih]
    · have hab : ¬a = b := fun h => hb (ha.trans h)
      simp [eraseA, ha, hb, hab, ih]
    · have hba : ¬b = a := fun h => ha (hb.trans h)
      simp [eraseA, ha, hb, hba, ih]
    · simp [eraseA, ha, hb, ih]

theorem checkedAdd_some {a b c : Nat} (h : checkedAdd a b = some c) : c = a + b := by
  unfold checkedAdd at h
  by_cases hle : a + b ≤ U128MAX
  · rw [if_pos hle] at h
    exact (Option.some.injEq _ _ ▸ h).symm
  · rw [if_neg hle] at h
    cases h

theorem div_add_div_le (a b c : Nat) : a / c + b / c ≤ (a + b) / c := by
  rcases Nat.eq_zero_or_pos c with hc | hc
  · subst hc; simp
  · rw [Nat.le_div_iff_mul_le hc, Nat.add_mul]
    exact Nat.add_le_add (Nat.div_mul_le_self a c) (Nat.div_mul_le_self b c)

theorem sum_map_div_le (ls : List Nat) (c : Nat) :
    (ls.map (fun x => x / c)).sum ≤ ls.sum / c := by
  induction ls with
  | nil => simp
  | cons x rest ih =>
    simp only [List.map_cons, List.sum_cons]
    exact le_trans (Nat.add_le_add_left ih _) (div_add_div_le x rest.sum c)

theorem sum_map_mul_right (ls : List Nat) (f : Nat → Nat) (R : Nat) :
    (ls.map (fun x => f x * R)).sum = (ls.map f).sum * R := by
  induction ls with
  | nil => simp
  | cons x rest ih => simp [ih, Nat.add_mul]

theorem PERBILL_pos : 0 < PERBILL := by decide

/-- The parts-per-billion shares of a list of values never add up to more
than the whole, whatever the rounding: if the values sum to the
denominator, the sum of `perbillMul (perbillFromRational v T) R` over them
is at most `R`. -/
theorem perbill_shares_sum_le (T R : Nat) (ls : List Nat) (hsum : ls.sum = T) :
    (ls.map (fun v => perbillMul (perbillFromRational v T) R)).sum ≤ R := by
  have h1 : (ls.map (fun v => perbillMul (perbillFromRational v T) R)).sum
      ≤ (ls.map (fun v => v * PERBILL / max T 1 * R / PERBILL)).sum := by
    apply List.sum_le_sum
    intro v _
    unfold perbillMul perbillFromRational
    have hmin : min v (max T 1) * PERBILL / max T 1 ≤ v * PERBILL / max T 1 :=
      Nat.div_le_div_right (Nat.mul_le_mul_right _ (Nat.min_le_left _ _))
    exact Nat.div_le_div_right (Nat.mul_le_mul_right _ hmin)
  have h2 : (ls.map (fun v => v * PERBILL / max T 1 * R / PERBILL)).sum
      ≤ (ls.map (fun v => v * PERBILL / max T 1 * R)).sum / PERBILL := by
    have h := sum_map_div_le (ls.map (fun v => v * PERBILL / max T 1 * R)) PERBILL
    simpa [List.map_map, Function.comp] using h
  have h3 : (ls.map (fun v => v * PERBILL / max T 1 * R)).sum
      = (ls.map (fun v => v * PERBILL / max T 1)).sum * R :=
    sum_map_mul_right ls (fun v => v * PERBILL / max T 1) R
  have h4 : (ls.map (fun v => v * PERBILL / max T 1)).sum ≤ PERBILL := by
    have ha : (ls.map (fun v => v * PERBILL / max T 1)).sum
        ≤ (ls.map (fun v => v * PERBILL)).sum / max T 1 := by
      have h := sum_map_div_le (ls.map (fun v => v * PERBILL)) (max T 1)
      simpa [List.map_map, Function.comp] using h
    have hb : (ls.map (fun v => v * PERBILL)).sum = T * PERBILL := by
      have h := sum_map_mul_right ls (fun v => v) PERBILL
      simpa [hsum] using h
    rw [hb] at ha
    refine le_trans ha (le_trans (Nat.div_le_div_right
      (Nat.mul_le_mul_right _ (le_max_left T 1))) ?_)
    rw [Nat.mul_div_cancel_left _ (lt_of_lt_of_le Nat.zero_lt_one (le_max_right T 1))]
  refine le_trans h1 (le_trans h2 ?_)
  rw [h3]
  refine le_trans (Nat.div_le_div_right (Nat.mul_le_mul_right R h4)) ?_
  rw [Nat.mul_div_cancel_left R PERBILL_pos]

theorem perbill_shares_sum_le_pairs (T R : Nat) (l : List (AccountId × Balance))
    (hsum : (l.map (fun p => p.2)).sum = T) :
    (l.map (fun p => perbillMul (perbillFromRational p.2 T) R)).sum ≤ R := by
  have h := perbill_shares_sum_le T R (l.map (fun p => p.2)) hsum
  simpa [List.map_map, Function.comp] using h

/-- When the requested shares fit in the remaining imbalance, the split in
`claimLoop` never caps: each staker's event carries exactly the requested
`perbill` share. -/
theorem claimLoop_exact (pool_id : PoolId) (era : EraIndex) (T R : Nat)
    (l : List (AccountId × Balance)) (rem : Nat)
    (h : (l.map (fun p => perbillMul (perbillFromRational p.2 T) R)).sum ≤ rem) :
    claimLoop pool_id era T R l rem =
      (l.map (fun p =>
        StakingEvent.Reward p.1 pool_id era (perbillMul (perbillFromRational p.2 T) R)),
       rem - (l.map (fun p => perbillMul (perbillFromRational p.2 T) R)).sum) := by
  induction l generalizing rem with
  | nil => simp [claimLoop]
  | cons p rest ih =>
    simp only [List.map_cons, List.sum_cons] at h
    have hask : perbillMul (perbillFromRational p.2 T) R ≤ rem :=
      le_trans (Nat.le_add_right _ _) h
    have hrest : (rest.map (fun p => perbillMul (perbillFromRational p.2 T) R)).sum
        ≤ rem - perbillMul (perbillFromRational p.2 T) R := by omega
    simp only [claimLoop, min_eq_left hask, ih _ hrest, List.map_cons, Prod.mk.injEq,
      List.sum_cons, true_and]
    omega

theorem stakingInfo_direct (s : StakingState) (pool_id : PoolId) (era : EraIndex)
    (pts : EraStakingPoints) (h : lookupA s.poolEraStake (pool_id, era) = some pts) :
    stakingInfo s pool_id era = pts := by
  simp [stakingInfo, h]

/-- Inversion of a successful `claim`: it implies the signed origin, the era
window, the unclaimed and non-empty points, the existing era snapshot, and
determines the emitted events and the final state. -/
theorem claim_ok_inv (cfg : StakingConfig) (origin : Origin) (pool_id : PoolId) (era : EraIndex)
    (s s' : StakingState) (evs : List StakingEvent)
    (hok : claim cfg origin pool_id era s = Except.ok (s', evs)) :
    (era < s.currentEra ∧ s.currentEra - cfg.historyDepth ≤ era) ∧
    (stakingInfo s pool_id era).claimed_rewards = 0 ∧
    (stakingInfo s pool_id era).stakers.isEmpty = false ∧
    (lookupA s.eraRewardsAndStakes era).isSome = true ∧
    evs = (claimLoop pool_id era (stakingInfo s pool_id era).total
            (computedPoolReward s pool_id era) (stakingInfo s pool_id era).stakers
            (computedPoolReward s pool_id era)).1 ∧
    s' = { s with
      palletFree := s.palletFree - computedPoolReward s pool_id era,
      totalIssuance := s.totalIssuance -
        (sumRewardAmounts (claimLoop pool_id era (stakingInfo s pool_id era).total
            (computedPoolReward s pool_id era) (stakingInfo s pool_id era).stakers
            (computedPoolReward s pool_id era)).1 +
          (claimLoop pool_id era (stakingInfo s pool_id era).total
            (computedPoolReward s pool_id era) (stakingInfo s pool_id era).stakers
            (computedPoolReward s pool_id era)).2),
      poolEraStake := (insertA s.poolEraStake (pool_id, era)
        { stakingInfo s pool_id era with
          claimed_rewards := computedPoolReward s pool_id era }) } := by
  rcases origin with _ | who | _
  · simp [claim, ensureSignedS] at hok
  · simp only [claim, ensureSignedS] at hok
    split at hok
    · next hcond =>
      split at hok
      · next hclaimed =>
        split at hok
        · next hempty => cases hok
        · next hempty =>
          split at hok
          · cases hok
          · next reward_and_stake heras =>
            split at hok
            · next hfree =>
              have hcomp : computedPoolReward s pool_id era =
                  perbillMul (perbillFromRational (stakingInfo s pool_id era).total
                    reward_and_stake.staked) reward_and_stake.rewards := by
                simp [computedPoolReward, heras]
              simp only [Except.ok.injEq, Prod.mk.injEq] at hok
              obtain ⟨hS, hE⟩ := hok
              refine ⟨hcond, hclaimed, ?_, ?_, ?_, ?_⟩
              · simpa using hempty
              · rw [heras]; rfl
              · rw [hcomp]; exact hE.symm
              · rw [hcomp]; exact hS.symm
            · cases hok
      · next hclaimed => cases hok
    · next hcond => cases hok
  · simp [claim, ensureSignedS] at hok

/-- C1: the claim says `add_chain_id`, `remove_chain_id`, `add_fisherman` and
`remove_fisherman` fail for every non-root origin and leave the sets
unchanged.  The source discards the `ensure_root` result
(`let _ = ensure_root(origin);`, `dapi/src/lib.rs:349/369/389/406`), so a
merely signed origin succeeds and mutates the set: all four calls below are
made with the signed, non-root origin `5` and succeed. -/
theorem C1_root_gate_discarded :
    addChainId dcfgW (Origin.Signed 5) [101, 102] dEmpty =
      Except.ok (⟨[], [], [[101, 102]]⟩, [DapiEvent.ChainIdAdded [101, 102]]) ∧
    removeChainId dcfgW (Origin.Signed 5) [101, 102] ⟨[], [], [[101, 102]]⟩ =
      Except.ok (dEmpty, [DapiEvent.ChainIdRemoved [101, 102]]) ∧
    addFisherman (Origin.Signed 5) 42 dEmpty =
      Except.ok (⟨[], [42], []⟩, [DapiEvent.FishermanAdded 42]) ∧
    removeFisherman (Origin.Signed 5) 42 ⟨[], [42], []⟩ =
      Except.ok (dEmpty, [DapiEvent.FishermanRemoved 42]) := by
  decide

/-- C2 (counterexample): in `sClaimDemo` the successful claim emits exactly
one `Reward` event, to the single staker, carrying the whole pool reward
`1000`; the claim as stated predicts a `Reward` event for the operator with
`operator_cut = 80% × 1000 = 800` and a staker payout of
`(100/100) × (1000 − 800) = 200`, neither of which occurs. -/
theorem C2_no_operator_cut_counterexample :
    claim cfgW (Origin.Signed 9) 1 1 sClaimDemo =
      Except.ok (sClaimDemoPost, [StakingEvent.Reward 7 1 1 1000]) ∧
    perbillMul specOperatorPercentage 1000 = 800 ∧
    perbillMul (perbillFromRational 100 100)
      (1000 - perbillMul specOperatorPercentage 1000) = 200 := by
  decide

/-- C2 (amended): on every successful `claim`, assuming the stake-points
invariant `total = Σ stakers`, the emitted events are exactly one `Reward`
per staker whose amount is the staker's parts-per-billion share `s / total`
of the full pool reward `(points.total / era.staked) × era.rewards`; no
operator cut is split off. -/
theorem C2_claim_staker_rewards (cfg : StakingConfig) (origin : Origin) (pool_id : PoolId)
    (era : EraIndex) (s s' : StakingState) (evs : List StakingEvent)
    (hok : claim cfg origin pool_id era s = Except.ok (s', evs))
    (hsum : ((stakingInfo s pool_id era).stakers.map (fun p => p.2)).sum =
      (stakingInfo s pool_id era).total) :
    evs = (stakingInfo s pool_id era).stakers.map (fun p =>
      StakingEvent.Reward p.1 pool_id era
        (perbillMul (perbillFromRational p.2 (stakingInfo s pool_id era).total)
          (computedPoolReward s pool_id era))) := by
  obtain ⟨-, -, -, -, hE, -⟩ := claim_ok_inv cfg origin pool_id era s s' evs hok
  rw [hE, claimLoop_exact _ _ _ _ _ _ (perbill_shares_sum_le_pairs _ _ _ hsum)]

theorem C2_claim_staker_rewards_witness :
    claim cfgW (Origin.Signed 9) 1 1 sClaimDemo =
      Except.ok (sClaimDemoPost, [StakingEvent.Reward 7 1 1 1000]) ∧
    [StakingEvent.Reward 7 1 1 1000] = (stakingInfo sClaimDemo 1 1).stakers.map (fun p =>
      StakingEvent.Reward p.1 1 1
        (perbillMul (perbillFromRational p.2 (stakingInfo sClaimDemo 1 1).total)
          (computedPoolReward sClaimDemo 1 1))) :=
  ⟨by decide,
   C2_claim_staker_rewards cfgW (Origin.Signed 9) 1 1 sClaimDemo sClaimDemoPost
     [StakingEvent.Reward 7 1 1 1000] (by decide) (by decide)⟩

/-- C3 (code_bug evaluation): a successful claim burns the withdrawn pool
reward instead of crediting it: from `sClaimDemo` the total issuance drops
from `10000` to `9000`, the pool account loses `1000`, and no account
balance or ledger changes — the `Reward` events name amounts nobody
receives.  The claim requires `total_issuance` to be unchanged. -/
theorem C3_claim_burns_issuance :
    claim cfgW (Origin.Signed 9) 1 1 sClaimDemo =
      Except.ok (sClaimDemoPost, [StakingEvent.Reward 7 1 1 1000]) ∧
    sClaimDemo.totalIssuance = 10000 ∧ sClaimDemoPost.totalIssuance = 9000 ∧
    sClaimDemoPost.freeBalances = sClaimDemo.freeBalances ∧
    sClaimDemoPost.ledgers = sClaimDemo.ledgers ∧
    sClaimDemoPost.palletFree + 1000 = sClaimDemo.palletFree := by
  decide

/-- C4 (counterexample): in `sC4` the points of pool `1` for era `3` have
`claimed_rewards = 7 > 0`, but `claim` on `(1, 3)` fails with
`EraOutOfBounds`, not with `AlreadyClaimedInThisEra`, because era `3` has
fallen out of the claimable window (current era `10`, history depth `2`). -/
theorem C4_out_of_window_counterexample :
    lookupA sC4.poolEraStake (1, 3) = some ⟨5, [(2, 5)], 7⟩ ∧
    (7 : Nat) ≠ 0 ∧
    claim cfgW (Origin.Signed 2) 1 3 sC4 = Except.error StakingError.EraOutOfBounds ∧
    claim cfgW (Origin.Signed 2) 1 3 sC4 ≠
      Except.error StakingError.AlreadyClaimedInThisEra := by
  decide

/-- C4 (amended): claim is at-most-once per `(pool, era)`.  If the stored
points of `(pool, era)` have `claimed_rewards > 0` then `claim` never
succeeds, and fails with `AlreadyClaimedInThisEra` whenever the origin is
signed and the era lies inside the claimable window; a successful claim
stores points for `(pool, era)` whose `claimed_rewards` is the computed pool
reward. -/
theorem C4_claim_at_most_once (cfg : StakingConfig) (origin : Origin) (pool_id : PoolId)
    (era : EraIndex) (s : StakingState) :
    (∀ pts, lookupA s.poolEraStake (pool_id, era) = some pts → pts.claimed_rewards ≠ 0 →
      (∀ out, claim cfg origin pool_id era s ≠ Except.ok out) ∧
      (∀ who, origin = Origin.Signed who → era < s.currentEra →
        s.currentEra - cfg.historyDepth ≤ era →
        claim cfg origin pool_id era s = Except.error StakingError.AlreadyClaimedInThisEra)) ∧
    (∀ s' evs, claim cfg origin pool_id era s = Except.ok (s', evs) →
      lookupA s'.poolEraStake (pool_id, era) = some
        { stakingInfo s pool_id era with
          claimed_rewards := computedPoolReward s pool_id era }) := by
  constructor
  · intro pts hpts hclaimed
    constructor
    · intro out hok
      rcases out with ⟨s', evs⟩
      obtain ⟨-, hzero, -⟩ := claim_ok_inv cfg origin pool_id era s s' evs hok
      rw [stakingInfo_direct s pool_id era pts hpts] at hzero
      exact hclaimed hzero
    · intro who hwho hlt hge
      subst hwho
      simp only [claim, ensureSignedS]
      rw [if_pos ⟨hlt, hge⟩, stakingInfo_direct s pool_id era pts hpts, if_neg hclaimed]
  · intro s' evs hok
    obtain ⟨-, -, -, -, -, hS⟩ := claim_ok_inv cfg origin pool_id era s s' evs hok
    rw [hS]
    exact lookupA_insertA_self _ _ _

theorem C4_claim_at_most_once_witness :
    claim cfgW (Origin.Signed 2) 1 3 sC4b = Except.error StakingError.AlreadyClaimedInThisEra ∧
    lookupA sClaimDemoPost.poolEraStake (1, 1) = some
      { stakingInfo sClaimDemo 1 1 with
        claimed_rewards := computedPoolReward sClaimDemo 1 1 } :=
  ⟨((C4_claim_at_most_once cfgW (Origin.Signed 2) 1 3 sC4b).1 ⟨5, [(2, 5)], 7⟩ (by decide)
      (by decide)).2 2 rfl (by decide) (by decide),
   (C4_claim_at_most_once cfgW (Origin.Signed 9) 1 1 sClaimDemo).2 sClaimDemoPost
     [StakingEvent.Reward 7 1 1 1000] (by decide)⟩

/-- C5 (counterexample): the boundary run at block `4` from `sEra` produces
exactly the era map `[(1, {rewards 100, staked 5}), (2, {rewards 0,
staked 5})]`: the snapshot entries consist solely of `rewards` and `staked`
(the struct literal at `mod.rs:343-349` admits no further field), so no
`locked` total exists to be carried forward as the claim states. -/
theorem C5_snapshot_no_locked_counterexample :
    onInitialize cfgW 4 sEra = (sEraPost, [StakingEvent.NewDapiStakingEra 2]) ∧
    sEraPost.eraRewardsAndStakes = [(1, ⟨100, 5⟩), (2, ⟨0, 5⟩)] := by
  decide

/-- C5 (amended): on `on_initialize(now)` a boundary fires exactly when
`now % BLOCKS_PER_ERA = 1` or `force_era = ForceNew` or `current_era = 0`;
then the era advances by one, the accumulator is taken into the closing
era's `rewards`, the next era's entry is created with `rewards = 0` and the
previous `staked` carried forward (these two fields are the whole entry —
there is no `locked` field), `force_era` is cleared when it was `ForceNew`,
`NewDapiStakingEra` is emitted, and nothing else changes; off the boundary
the state is untouched and no event is emitted. -/
theorem C5_era_boundary (cfg : StakingConfig) (now : Nat) (s : StakingState) :
    ((now % cfg.blockPerEra = 1 ∨ s.forceEra = Forcing.ForceNew ∨ s.currentEra = 0) →
      (onInitialize cfg now s).2 = [StakingEvent.NewDapiStakingEra (s.currentEra + 1)] ∧
      (onInitialize cfg now s).1.currentEra = s.currentEra + 1 ∧
      (onInitialize cfg now s).1.blockRewardAccumulator = 0 ∧
      lookupA (onInitialize cfg now s).1.eraRewardsAndStakes s.currentEra =
        some { rewards := s.blockRewardAccumulator,
               staked := ((lookupA s.eraRewardsAndStakes s.currentEra).getD default).staked } ∧
      lookupA (onInitialize cfg now s).1.eraRewardsAndStakes (s.currentEra + 1) =
        some { rewards := 0,
               staked := ((lookupA s.eraRewardsAndStakes s.currentEra).getD default).staked } ∧
      eraseA (eraseA (onInitialize cfg now s).1.eraRewardsAndStakes s.currentEra)
          (s.currentEra + 1) =
        eraseA (eraseA s.eraRewardsAndStakes s.currentEra) (s.currentEra + 1) ∧
      (onInitialize cfg now s).1.forceEra =
        (if s.forceEra = Forcing.ForceNew then Forcing.ForceNone else s.forceEra) ∧
      (onInitialize cfg now s).1.ledgers = s.ledgers ∧
      (onInitialize cfg now s).1.poolEraStake = s.poolEraStake ∧
      (onInitialize cfg now s).1.locks = s.locks ∧
      (onInitialize cfg now s).1.freeBalances = s.freeBalances ∧
      (onInitialize cfg now s).1.palletFree = s.palletFree ∧
      (onInitialize cfg now s).1.totalIssuance = s.totalIssuance) ∧
    (¬(now % cfg.blockPerEra = 1 ∨ s.forceEra = Forcing.ForceNew ∨ s.currentEra = 0) →
      onInitialize cfg now s = (s, [])) := by
  constructor
  · intro hb
    simp only [onInitialize, rewardBalanceSnapshot]
    rw [if_pos hb]
    have hne : s.currentEra + 1 ≠ s.currentEra := Nat.succ_ne_self s.currentEra
    by_cases hf : s.forceEra = Forcing.ForceNew
    · simp only [if_pos hf]
      refine ⟨trivial, trivial, trivial, ?_, ?_, ?_, trivial, trivial, trivial, trivial,
        trivial, trivial, trivial⟩
      · exact lookupA_insertA_self _ _ _
      · rw [lookupA_insertA_ne _ _ _ _ hne]
        exact lookupA_insertA_self _ _ _
      · rw [eraseA_insertA_self, eraseA_comm, eraseA_insertA_self, eraseA_comm]
    · simp only [if_neg hf]
      refine ⟨trivial, trivial, trivial, ?_, ?_, ?_, trivial, trivial, trivial, trivial,
        trivial, trivial, trivial⟩
      · exact lookupA_insertA_self _ _ _
      · rw [lookupA_insertA_ne _ _ _ _ hne]
        exact lookupA_insertA_self _ _ _
      · rw [eraseA_insertA_self, eraseA_comm, eraseA_insertA_self, eraseA_comm]
  · intro hb
    simp only [onInitialize]
    rw [if_neg hb]

theorem C5_era_boundary_witness :
    lookupA (onInitialize cfgW 4 sEra).1.eraRewardsAndStakes 2 = some ⟨0, 5⟩ ∧
    onInitialize cfgW 2 sEraPost = (sEraPost, []) :=
  ⟨((C5_era_boundary cfgW 4 sEra).1 (by decide)).2.2.2.2.1,
   (C5_era_boundary cfgW 2 sEraPost).2 (by decide)⟩

/-- Inversion of a successful `stake`: the clamped amount is non-zero and
the final state is determined field by field — ledger and lock raised by the
clamped amount, pool points extended, the era snapshot's `staked` bumped
only where an entry exists. -/
theorem stake_ok_inv (cfg : StakingConfig) (staker : AccountId) (pool_id : PoolId)
    (value : Balance) (s s' : StakingState) (evs : List StakingEvent)
    (hok : stake cfg staker pool_id value s = Except.ok (s', evs)) :
    clampedStakeAmount cfg staker value s ≠ 0 ∧
    (ledgerOf s' staker).locked =
      (ledgerOf s staker).locked + clampedStakeAmount cfg staker value s ∧
    lookupA s'.poolEraStake (pool_id, s.currentEra) = some
      { stakingInfo s pool_id s.currentEra with
        total := (stakingInfo s pool_id s.currentEra).total +
          clampedStakeAmount cfg staker value s,
        stakers := insertA (stakingInfo s pool_id s.currentEra).stakers staker
          (((lookupA (stakingInfo s pool_id s.currentEra).stakers staker).getD 0) +
            clampedStakeAmount cfg staker value s) } ∧
    s'.eraRewardsAndStakes = mutateIfSome s.eraRewardsAndStakes s.currentEra
      (fun x => { x with staked := satAdd x.staked (clampedStakeAmount cfg staker value s) }) ∧
    s'.ledgers = insertA s.ledgers staker
      { ledgerOf s staker with
        locked := (ledgerOf s staker).locked + clampedStakeAmount cfg staker value s } ∧
    s'.locks = insertA s.locks staker
      ((ledgerOf s staker).locked + clampedStakeAmount cfg staker value s) ∧
    evs = [StakingEvent.BondAndStake staker pool_id (clampedStakeAmount cfg staker value s)] := by
  simp only [stake] at hok
  by_cases h0 : clampedStakeAmount cfg staker value s = 0
  · have h0' : min value (freeBalanceOf s staker - cfg.minimumRemainingAmount -
        (ledgerOf s staker).locked) = 0 := h0
    rw [if_pos h0'] at hok
    cases hok
  · have h0' : ¬ min value (freeBalanceOf s staker - cfg.minimumRemainingAmount -
        (ledgerOf s staker).locked) = 0 := h0
    rw [if_neg h0'] at hok
    split at hok
    · cases hok
    · next new_locked hlk =>
      split at hok
      · cases hok
      · next new_total htot =>
        split at hok
        · cases hok
        · next new_entry hent =>
          simp only [Except.ok.injEq, Prod.mk.injEq] at hok
          obtain ⟨hS, hE⟩ := hok
          have hlk' : new_locked =
              (ledgerOf s staker).locked + clampedStakeAmount cfg staker value s :=
            checkedAdd_some hlk
          have htot' : new_total = (stakingInfo s pool_id s.currentEra).total +
              clampedStakeAmount cfg staker value s :=
            checkedAdd_some htot
          have hent' : new_entry =
              ((lookupA (stakingInfo s pool_id s.currentEra).stakers staker).getD 0) +
                clampedStakeAmount cfg staker value s :=
            checkedAdd_some hent
          have hnz : ¬(new_locked = 0 ∧
              (ledgerOf s staker).unbonding_info.isEmpty = true) := by
            intro hcontra
            have h1 := hcontra.1
            rw [hlk'] at h1
            simp only [Nat.add_eq_zero] at h1
            exact h0 h1.2
          subst hS
          refine ⟨h0, ?_, ?_, ?_, ?_, ?_, hE.symm⟩
          · simp only [ledgerOf, updateLedger]
            split
            · next hcond => exact absurd hcond hnz
            · next hcond => simp [ledgerOf, lookupA_insertA_self, hlk']
          · rw [lookupA_insertA_self]
            rw [htot', hent']
          · simp only [updateLedger]
            split
            · next hcond => exact absurd hcond hnz
            · next hcond => rfl
          · simp only [updateLedger]
            split
            · next hcond => exact absurd hcond hnz
            · next hcond => simp [hlk']
          · simp only [updateLedger]
            split
            · next hcond => exact absurd hcond hnz
            · next hcond => simp [hlk']

/-- C6: `stake` locks exactly
`amount = min(requested, free − MINIMUM_REMAINING_AMOUNT − ledger.locked)`
(saturating), fails with `StakingWithNoValue` exactly when that amount is
zero, and on success raises the staker's ledger lock, the pool total and the
pool's per-staker entry by exactly that amount. -/
theorem C6_stake_clamp (cfg : StakingConfig) (staker : AccountId) (pool_id : PoolId)
    (value : Balance) (s : StakingState) :
    (stake cfg staker pool_id value s = Except.error StakingError.StakingWithNoValue ↔
      clampedStakeAmount cfg staker value s = 0) ∧
    (∀ s' evs, stake cfg staker pool_id value s = Except.ok (s', evs) →
      (ledgerOf s' staker).locked =
        (ledgerOf s staker).locked + clampedStakeAmount cfg staker value s ∧
      (lookupA s'.poolEraStake (pool_id, s.currentEra)).map
          (fun info => (info.total, lookupA info.stakers staker)) =
        some ((stakingInfo s pool_id s.currentEra).total + clampedStakeAmount cfg staker value s,
          some (((lookupA (stakingInfo s pool_id s.currentEra).stakers staker).getD 0) +
            clampedStakeAmount cfg staker value s)) ∧
      evs = [StakingEvent.BondAndStake staker pool_id (clampedStakeAmount cfg staker value s)]) := by
  constructor
  · by_cases h0 : clampedStakeAmount cfg staker value s = 0
    · have h0' : min value (freeBalanceOf s staker - cfg.minimumRemainingAmount -
          (ledgerOf s staker).locked) = 0 := h0
      constructor
      · intro _; exact h0
      · intro _
        simp only [stake]
        rw [if_pos h0']
    · constructor
      · intro herr
        exfalso
        have h0' : ¬ min value (freeBalanceOf s staker - cfg.minimumRemainingAmount -
            (ledgerOf s staker).locked) = 0 := h0
        simp only [stake] at herr
        rw [if_neg h0'] at herr
        split at herr
        · cases herr
        · split at herr
          · cases herr
          · split at herr
            · cases herr
            · cases herr
      · intro hz; exact absurd hz h0
  · intro s' evs hok
    obtain ⟨-, hlocked, hpool, -, -, -, hevs⟩ :=
      stake_ok_inv cfg staker pool_id value s s' evs hok
    refine ⟨hlocked, ?_, hevs⟩
    rw [hpool]
    simp [lookupA_insertA_self]

theorem C6_stake_clamp_witness :
    clampedStakeAmount cfgW 4 50 sStake = 50 ∧
    stake cfgW 4 1 50 sStake = Except.ok (sStakePost, [StakingEvent.BondAndStake 4 1 50]) ∧
    (ledgerOf sStakePost 4).locked =
      (ledgerOf sStake 4).locked + clampedStakeAmount cfgW 4 50 sStake ∧
    stake cfgW 4 1 0 sStake = Except.error StakingError.StakingWithNoValue :=
  ⟨by decide, by decide,
   ((C6_stake_clamp cfgW 4 1 50 sStake).2 sStakePost [StakingEvent.BondAndStake 4 1 50]
      (by decide)).1,
   (C6_stake_clamp cfgW 4 1 0 sStake).1.mpr (by decide)⟩

/-- C7 (counterexample): pool `1` in `sSeven` already has three distinct
stakers in its current-era points, yet the stake call of the fresh account
`9` succeeds, giving four stakers.  The pallet's error enum
(`mod.rs:136-143`) has no `MaxStakersExceeded` and `stake` performs no count
check, so the same construction succeeds at any purported cap. -/
theorem C7_no_staker_cap_counterexample :
    (stakingInfo sSeven 1 1).stakers.length = 3 ∧
    stake cfgW 9 1 10 sSeven = Except.ok (sSevenPost, [StakingEvent.BondAndStake 9 1 10]) ∧
    (stakingInfo sSevenPost 1 1).stakers.length = 4 := by
  decide

/-- C7 (amended): `stake` imposes no limit on the number of stakers: every
successful stake by an account not already among the pool's stakers extends
the staker map by one entry, whatever its size. -/
theorem C7_unbounded_stakers (cfg : StakingConfig) (staker : AccountId) (pool_id : PoolId)
    (value : Balance) (s s' : StakingState) (evs : List StakingEvent)
    (hok : stake cfg staker pool_id value s = Except.ok (s', evs))
    (hnotin : lookupA (stakingInfo s pool_id s.currentEra).stakers staker = none) :
    (lookupA s'.poolEraStake (pool_id, s.currentEra)).map (fun info => info.stakers.length) =
      some ((stakingInfo s pool_id s.currentEra).stakers.length + 1) := by
  obtain ⟨-, -, hpool, -⟩ := stake_ok_inv cfg staker pool_id value s s' evs hok
  rw [hpool]
  simp [insertA_length_of_none _ _ _ hnotin]

theorem C7_unbounded_stakers_witness :
    (lookupA sSevenPost.poolEraStake (1, 1)).map (fun info => info.stakers.length) =
      some ((stakingInfo sSeven 1 1).stakers.length + 1) :=
  C7_unbounded_stakers cfgW 9 1 10 sSeven sSevenPost [StakingEvent.BondAndStake 9 1 10]
    (by decide) (by decide)

theorem lookupA_pair_mem_keys {ν : Type} (l : List ((PoolId × EraIndex) × ν)) (pool_id : PoolId)
    (e : EraIndex) (v : ν) (h : lookupA l (pool_id, e) = some v) :
    e ∈ (l.filter (fun p => p.1.1 = pool_id)).map (fun p => p.1.2) := by
  induction l with
  | nil => cases h
  | cons p rest ih =>
    by_cases hp : p.1 = (pool_id, e)
    · simp [List.filter_cons, hp]
    · simp only [lookupA, hp, if_false] at h
      by_cases hq : p.1.1 = pool_id <;> simp [List.filter_cons, hq, ih h]

theorem lookupA_some_mem_poolEraKeys (s : StakingState) (pool_id : PoolId) (e : EraIndex)
    (v : EraStakingPoints) (h : lookupA s.poolEraStake (pool_id, e) = some v) :
    e ∈ poolEraKeys s pool_id :=
  lookupA_pair_mem_keys s.poolEraStake pool_id e v h

/-- C8: `staking_info(pool, era)` returns the direct entry when present;
otherwise the entry of the greatest stored era `e' ≤ era` with
`claimed_rewards` zeroed; and the default points when no stored era is
`≤ era`. -/
theorem C8_staking_info_fallback (s : StakingState) (pool_id : PoolId) (era : EraIndex) :
    (∀ pts, lookupA s.poolEraStake (pool_id, era) = some pts →
      stakingInfo s pool_id era = pts) ∧
    (lookupA s.poolEraStake (pool_id, era) = none →
      (∀ e' pts', e' ≤ era → lookupA s.poolEraStake (pool_id, e') = some pts' →
        (∀ e'' ∈ poolEraKeys s pool_id, e'' ≤ era → e'' ≤ e') →
        stakingInfo s pool_id era = { pts' with claimed_rewards := 0 }) ∧
      ((∀ e'' ∈ poolEraKeys s pool_id, ¬ e'' ≤ era) →
        stakingInfo s pool_id era = default)) := by
  constructor
  · exact fun pts h => stakingInfo_direct s pool_id era pts h
  · intro hnone
    constructor
    · intro e' pts' hle hlook hmax
      have hmem : e' ∈ (poolEraKeys s pool_id).filter (fun x => x ≤ era) := by
        rw [List.mem_filter]
        exact ⟨lookupA_some_mem_poolEraKeys s pool_id e' pts' hlook, by simpa using hle⟩
      have hmax' : ((poolEraKeys s pool_id).filter (fun x => x ≤ era)).max? = some e' := by
        rw [List.max?_eq_some_iff']
        refine ⟨hmem, ?_⟩
        intro b hb
        rw [List.mem_filter] at hb
        exact hmax b hb.1 (by simpa using hb.2)
      simp [stakingInfo, hnone, hmax', hlook]
    · intro hnotin
      have hfilter : ((poolEraKeys s pool_id).filter (fun x => x ≤ era)) = [] := by
        rw [List.filter_eq_nil_iff]
        intro a ha
        simpa using hnotin a ha
      have hzero : lookupA s.poolEraStake (pool_id, (0 : Nat)) = none := by
        cases hz : lookupA s.poolEraStake (pool_id, (0 : Nat)) with
        | none => rfl
        | some v =>
          exact absurd (Nat.zero_le era)
            (hnotin 0 (lookupA_some_mem_poolEraKeys s pool_id 0 v hz))
      simp [stakingInfo, hnone, hfilter, hzero]
      rfl

theorem C8_staking_info_fallback_witness :
    stakingInfo sInfo 1 4 = ⟨30, [(6, 30)], 13⟩ ∧
    stakingInfo sInfo 1 7 = ⟨30, [(6, 30)], 0⟩ ∧
    stakingInfo sInfo 1 1 = default :=
  ⟨(C8_staking_info_fallback sInfo 1 4).1 ⟨30, [(6, 30)], 13⟩ (by decide),
   ((C8_staking_info_fallback sInfo 1 7).2 (by decide)).1 4 ⟨30, [(6, 30)], 13⟩
     (by decide) (by decide) (by decide),
   ((C8_staking_info_fallback sInfo 1 1).2 (by decide)).2 (by decide)⟩

/-- C9: `submit_project_usage` fails with `PermissionDenied` for signed
callers outside the fishermen set; for a fisherman and an existing project
it sets `usage` to `min(usage_prev + usage, quota)` (so usage stays at most
`quota`, and does not decrease when it was within quota) and emits
`ProjectReachedQuota` exactly when the new usage equals the quota, else
`ProjectUsageReported`. -/
theorem C9_submit_project_usage (origin : Origin) (project_id : MassbitId) (usage : Nat)
    (s : DapiState) (caller : AccountId) (hsig : origin = Origin.Signed caller) :
    (caller ∉ s.fishermen →
      submitProjectUsage origin project_id usage s = Except.error DapiError.PermissionDenied) ∧
    (∀ project, caller ∈ s.fishermen → lookupA s.projects project_id = some project →
      project.quota ≤ U128MAX →
      submitProjectUsage origin project_id usage s = Except.ok
        ({ s with projects := (insertA s.projects project_id
            { project with usage := min (project.usage + usage) project.quota }) },
         [if min (project.usage + usage) project.quota = project.quota
          then DapiEvent.ProjectReachedQuota project_id
          else DapiEvent.ProjectUsageReported project_id usage]) ∧
      min (project.usage + usage) project.quota ≤ project.quota ∧
      (project.usage ≤ project.quota →
        project.usage ≤ min (project.usage + usage) project.quota)) := by
  subst hsig
  constructor
  · intro hnf
    simp [submitProjectUsage, ensureSignedD, hnf]
  · intro project hf hlook hquota
    have hsat : min (satAdd project.usage usage) project.quota
        = min (project.usage + usage) project.quota := by
      unfold satAdd
      rw [min_assoc, min_eq_right hquota]
    refine ⟨?_, Nat.min_le_right _ _, ?_⟩
    · simp [submitProjectUsage, ensureSignedD, hf, hlook, hsat]
    · intro hur
      rw [Nat.le_min]
      exact ⟨Nat.le_add_right _ _, hur⟩

theorem C9_submit_project_usage_witness :
    submitProjectUsage (Origin.Signed 4) 1 60 dUse = Except.error DapiError.PermissionDenied ∧
    submitProjectUsage (Origin.Signed 3) 1 60 dUse = Except.ok
      (⟨[(1, ⟨5, [1], 100, 100⟩)], [3], [[1]]⟩, [DapiEvent.ProjectReachedQuota 1]) :=
  ⟨(C9_submit_project_usage (Origin.Signed 4) 1 60 dUse 4 rfl).1 (by decide),
   by
    have h := ((C9_submit_project_usage (Origin.Signed 3) 1 60 dUse 3 rfl).2 ⟨5, [1], 100, 50⟩
      (by decide) (by decide) (by decide)).1
    exact h⟩

/-- C10: when `EraRewardsAndStakes` has no entry for the current era, a
successful `stake` leaves that map entirely unchanged; when an entry exists,
only its `staked` field is bumped (all other keys untouched).  In both cases
the staker's ledger, the currency lock and the pool's staking points are
updated. -/
theorem C10_stake_era_frame (cfg : StakingConfig) (staker : AccountId) (pool_id : PoolId)
    (value : Balance) (s s' : StakingState) (evs : List StakingEvent)
    (hok : stake cfg staker pool_id value s = Except.ok (s', evs)) :
    (lookupA s.eraRewardsAndStakes s.currentEra = none →
      s'.eraRewardsAndStakes = s.eraRewardsAndStakes) ∧
    (∀ x, lookupA s.eraRewardsAndStakes s.currentEra = some x →
      lookupA s'.eraRewardsAndStakes s.currentEra =
        some { x with staked := satAdd x.staked (clampedStakeAmount cfg staker value s) } ∧
      eraseA s'.eraRewardsAndStakes s.currentEra = eraseA s.eraRewardsAndStakes s.currentEra) ∧
    (ledgerOf s' staker).locked =
      (ledgerOf s staker).locked + clampedStakeAmount cfg staker value s ∧
    lookupA s'.locks staker =
      some ((ledgerOf s staker).locked + clampedStakeAmount cfg staker value s) ∧
    (lookupA s'.poolEraStake (pool_id, s.currentEra)).isSome = true := by
  obtain ⟨-, hlocked, hpool, heras, -, hlocks, -⟩ :=
    stake_ok_inv cfg staker pool_id value s s' evs hok
  refine ⟨?_, ?_, hlocked, ?_, ?_⟩
  · intro hn
    rw [heras, mutateIfSome_of_none _ _ _ hn]
  · intro x hx
    constructor
    · rw [heras, lookupA_mutateIfSome_self, hx]
      rfl
    · rw [heras, eraseA_mutateIfSome_self]
  · rw [hlocks]
    exact lookupA_insertA_self _ _ _
  · rw [hpool]
    rfl

theorem C10_stake_era_frame_witness :
    sStakePost.eraRewardsAndStakes = sStake.eraRewardsAndStakes ∧
    lookupA sStake2Post.eraRewardsAndStakes 1 = some ⟨0, 57⟩ ∧
    lookupA sStakePost.locks 4 = some 50 :=
  ⟨(C10_stake_era_frame cfgW 4 1 50 sStake sStakePost [StakingEvent.BondAndStake 4 1 50]
      (by decide)).1 (by decide),
   ((C10_stake_era_frame cfgW 4 1 50 sStake2 sStake2Post [StakingEvent.BondAndStake 4 1 50]
      (by decide)).2.1 ⟨0, 7⟩ (by decide)).1,
   (C10_stake_era_frame cfgW 4 1 50 sStake sStakePost [StakingEvent.BondAndStake 4 1 50]
      (by decide)).2.2.2.1⟩

end Massbit
